import Mathlib

/-!
Verification of the trading-simulator core.

Shallow embedding of the repository's trade engine
(`app/api/services/trade_service.py`), market sync service
(`app/api/services/market_service.py`) and WebSocket broadcaster
(`app/api/core/socket_manager.py`) together with the repository layer
they call. Monetary amounts (Python `Decimal`) are modelled as exact
rationals; database tables are modelled as lists of rows, with the
SQLAlchemy session's commit-or-rollback semantics modelled by returning
either the fully-updated state (`Except.ok`) or an error leaving the
original state in force.
-/

namespace TradingSim

/-- Row of the `users` table (fields relevant to the trading core). -/
structure User where
  id : Nat
  balance : ℚ
deriving DecidableEq, Repr

/-- Row of the `assets` table. -/
structure Asset where
  id : Nat
  ticker : String
  binance_symbol : String
  current_price : ℚ
  is_active : Bool
deriving DecidableEq, Repr

/-- Row of the `portfolios` table: a user's holding of one asset. -/
structure Portfolio where
  user_id : Nat
  asset_id : Nat
  quantity : ℚ
deriving DecidableEq, Repr

/-- Row of the `transactions` table (the append-only trade ledger). The
ledger list is kept in chronological (insertion) order, matching the
`ORDER BY timestamp ASC` read in `TransactionRepository.get_by_user`. -/
structure Transaction where
  user_id : Nat
  asset_id : Nat
  amount : ℚ
  price_at_transaction : ℚ
  type : String
deriving DecidableEq, Repr

/-- Durable-store state seen by the trade engine. -/
structure DB where
  users : List User
  assets : List Asset
  portfolios : List Portfolio
  transactions : List Transaction
deriving DecidableEq, Repr

/-- Errors raised by `TradeService` (`HTTPException` 404/400 variants). -/
inductive TradeError where
  | userNotFound
  | assetNotFound
  | insufficientFunds
  | insufficientHolding
  | invalidTradeType
deriving DecidableEq, Repr

/-- The constant `TradeService.INITIAL_BALANCE = Decimal("100000.00")`. -/
def INITIAL_BALANCE : ℚ := 100000

/-- `UserRepository.get_by_id`: first user row with the given id. -/
def get_user_by_id (db : DB) (uid : Nat) : Option User :=
  db.users.find? (fun u => u.id == uid)

/-- `AssetRepository.get_by_ticker`. -/
def get_asset_by_ticker (db : DB) (ticker : String) : Option Asset :=
  db.assets.find? (fun a => a.ticker == ticker)

/-- `PortfolioRepository.get_by_user_and_asset`. -/
def get_by_user_and_asset (db : DB) (uid aid : Nat) : Option Portfolio :=
  db.portfolios.find? (fun p => p.user_id == uid && p.asset_id == aid)

/-- `UserRepository.update_balance`: `user.balance += amount` on the ORM
object, i.e. on the row(s) with the user's id. -/
def update_user_balance (db : DB) (uid : Nat) (delta : ℚ) : DB :=
  { db with users := db.users.map (fun u =>
      if u.id == uid then { u with balance := u.balance + delta } else u) }

/-- `PortfolioRepository.update_quantity`: `portfolio.quantity += delta`. -/
def update_portfolio_quantity (db : DB) (uid aid : Nat) (delta : ℚ) : DB :=
  { db with portfolios := db.portfolios.map (fun p =>
      if p.user_id == uid && p.asset_id == aid
      then { p with quantity := p.quantity + delta } else p) }

/-- `PortfolioRepository.create`: adds a fresh holding row. -/
def create_portfolio (db : DB) (uid aid : Nat) (quantity : ℚ) : DB :=
  { db with portfolios :=
      db.portfolios ++ [{ user_id := uid, asset_id := aid, quantity := quantity }] }

/-- `TradeService._process_buy`: rejects when `user.balance < cost`,
otherwise debits the balance and credits (or creates) the holding. -/
def process_buy (db : DB) (user : User) (asset : Asset)
    (portfolio_item : Option Portfolio) (amount cost : ℚ) : Except TradeError DB :=
  if user.balance < cost then
    .error .insufficientFunds
  else
    let db1 := update_user_balance db user.id (-cost)
    match portfolio_item with
    | some _ => .ok (update_portfolio_quantity db1 user.id asset.id amount)
    | none => .ok (create_portfolio db1 user.id asset.id amount)

/-- `TradeService._process_sell`: rejects when the holding is absent or
`holding.quantity < amount`, otherwise credits the balance and debits
the holding. -/
def process_sell (db : DB) (user : User) (asset : Asset)
    (portfolio_item : Option Portfolio) (amount income : ℚ) : Except TradeError DB :=
  match portfolio_item with
  | none => .error .insufficientHolding
  | some p =>
    if p.quantity < amount then .error .insufficientHolding
    else .ok (update_portfolio_quantity (update_user_balance db user.id income)
                user.id asset.id (-amount))

/-- `TradeService.execute_trade`. Looks up the user then the asset,
computes `total_value = asset.current_price * amount`, dispatches on the
trade type string, appends the ledger row and commits. An error models
an `HTTPException` raised before `db.commit()`, so nothing persists. -/
def execute_trade (db : DB) (uid : Nat) (ticker : String) (amount : ℚ)
    (trade_type : String) : Except TradeError (DB × Transaction) :=
  match get_user_by_id db uid with
  | none => .error .userNotFound
  | some user =>
    match get_asset_by_ticker db ticker with
    | none => .error .assetNotFound
    | some asset =>
      let portfolio_item := get_by_user_and_asset db uid asset.id
      let total_value := asset.current_price * amount
      let processed : Except TradeError DB :=
        if trade_type == "BUY" then
          process_buy db user asset portfolio_item amount total_value
        else if trade_type == "SELL" then
          process_sell db user asset portfolio_item amount total_value
        else .error .invalidTradeType
      match processed with
      | .error e => .error e
      | .ok db1 =>
        let tx : Transaction :=
          { user_id := user.id, asset_id := asset.id, amount := amount,
            price_at_transaction := asset.current_price, type := trade_type }
        .ok ({ db1 with transactions := db1.transactions ++ [tx] }, tx)

/-- State visible after an `execute_trade` call: the committed state on
success, the untouched original state when the call raised (rollback of
the uncommitted session). -/
def execute_trade_db (db : DB) (uid : Nat) (ticker : String) (amount : ℚ)
    (trade_type : String) : DB :=
  match execute_trade db uid ticker amount trade_type with
  | .ok r => r.1
  | .error _ => db

/-- Payload returned by `TradeService.reset_account`. -/
structure ResetResult where
  deleted_portfolio_items : Nat
  deleted_transactions : Nat
  new_balance : ℚ
deriving DecidableEq, Repr

/-- `TradeService.reset_account`: deletes the user's holdings and ledger
rows (returning the rowcounts) and restores the initial balance. -/
def reset_account (db : DB) (uid : Nat) : Except TradeError (DB × ResetResult) :=
  match get_user_by_id db uid with
  | none => .error .userNotFound
  | some user =>
    let deleted_portfolio := (db.portfolios.filter (fun p => p.user_id == uid)).length
    let deleted_txs := (db.transactions.filter (fun t => t.user_id == uid)).length
    let db1 : DB :=
      { db with
        portfolios := db.portfolios.filter (fun p => p.user_id != uid),
        transactions := db.transactions.filter (fun t => t.user_id != uid),
        users := db.users.map (fun u =>
          if u.id == user.id then { u with balance := INITIAL_BALANCE } else u) }
    .ok (db1, { deleted_portfolio_items := deleted_portfolio,
                deleted_transactions := deleted_txs,
                new_balance := INITIAL_BALANCE })

/-- State visible after a `reset_account` call. -/
def reset_account_db (db : DB) (uid : Nat) : DB :=
  match reset_account db uid with
  | .ok r => r.1
  | .error _ => db

/-- Running per-ticker aggregate of `TradeService.get_wallet`'s
cost-basis replay (the `asset_stats` dictionary entries). -/
structure AssetStats where
  total_cost : ℚ
  quantity : ℚ
  avg_price : ℚ
deriving DecidableEq, Repr

/-- One step of the `get_wallet` ledger replay loop, acting on the stats
of the transaction's ticker. Python `Decimal` division is modelled as
exact rational division. -/
def wallet_stats_step (stats : AssetStats) (tx_type : String)
    (amount price : ℚ) : AssetStats :=
  if tx_type == "BUY" then
    let q := stats.quantity + amount
    let tc := stats.total_cost + amount * price
    { total_cost := tc, quantity := q,
      avg_price := if 0 < q then tc / q else stats.avg_price }
  else if tx_type == "SELL" then
    let q := stats.quantity - amount
    let tc := stats.total_cost - amount * stats.avg_price
    if q ≤ 0 then { total_cost := 0, quantity := 0, avg_price := 0 }
    else { total_cost := tc, quantity := q, avg_price := stats.avg_price }
  else stats

/-- Replays one ticker's chronological `(type, amount, price)` ledger
slice from the zero stats, as `get_wallet` does per dictionary key. -/
def replay_ledger (txs : List (String × ℚ × ℚ)) : AssetStats :=
  txs.foldl (fun st t => wallet_stats_step st t.1 t.2.1 t.2.2)
    { total_cost := 0, quantity := 0, avg_price := 0 }

/-- Ticker of the asset a ledger row points at (`tx.asset.ticker`). -/
def asset_ticker_of (db : DB) (aid : Nat) : Option String :=
  (db.assets.find? (fun a => a.id == aid)).map (fun a => a.ticker)

/-- One element of the wallet's `assets` list. -/
structure WalletAsset where
  ticker : String
  amount : ℚ
  current_price : ℚ
  value : ℚ
  average_buy_price : ℚ
deriving DecidableEq, Repr

/-- Result of `TradeService.get_wallet`. -/
structure Wallet where
  balance : ℚ
  assets : List WalletAsset
  total_value : ℚ
deriving DecidableEq, Repr

/-- Average buy price that the `asset_stats` replay produces for one
ticker of one user: the user's ledger rows whose asset bears that
ticker, in chronological order, folded through `wallet_stats_step`.
A ticker with no ledger rows yields the dictionary default 0. -/
def user_avg_price (db : DB) (uid : Nat) (ticker : String) : ℚ :=
  (replay_ledger (((db.transactions.filter (fun tx => tx.user_id == uid)).filter
      (fun tx => asset_ticker_of db tx.asset_id == some ticker)).map
      (fun tx => (tx.type, tx.amount, tx.price_at_transaction)))).avg_price

/-- `TradeService.get_wallet`: valuation rows come from the Portfolio
holdings (skipping a holding whose asset row is missing, as the source's
`if asset:` does), the cost basis from the ledger replay. -/
def get_wallet (db : DB) (uid : Nat) : Option Wallet :=
  match get_user_by_id db uid with
  | none => none
  | some user =>
    let entries := (db.portfolios.filter (fun p => p.user_id == uid)).filterMap
      (fun p =>
        match db.assets.find? (fun a => a.id == p.asset_id) with
        | none => none
        | some a => some
            { ticker := a.ticker, amount := p.quantity,
              current_price := a.current_price,
              value := p.quantity * a.current_price,
              average_buy_price := user_avg_price db uid a.ticker : WalletAsset })
    let total_assets_value := (entries.map (fun e => e.value)).sum
    some { balance := user.balance, assets := entries,
           total_value := user.balance + total_assets_value }

/-- WebSocket message sent by `MarketService._broadcast_updates`. -/
structure MarketMessage where
  type : String
  data : List (String × ℚ)
deriving DecidableEq, Repr

/-- State touched by one `MarketService._update_prices` cycle: the asset
table, the append-only price-history log and the log of messages handed
to the connection manager. Feed prices (Python floats, converted with
`Decimal(str(price))`) are modelled as rationals. -/
structure MarketState where
  assets : List Asset
  price_history : List (Nat × ℚ)
  broadcasts : List MarketMessage
deriving DecidableEq, Repr

/-- Outcome of the one batched `BinanceClient.get_prices` call a cycle
makes: a symbol-to-price map, or any transport/HTTP failure. -/
inductive FeedResult where
  | ok (prices : List (String × ℚ))
  | unavailable
deriving DecidableEq, Repr

/-- The filter `s and s.isupper() and s.isalnum()` from
`MarketService._fetch_live_prices`, over ASCII symbols: nonempty, every
character an uppercase letter or digit, at least one letter. -/
def is_feed_symbol_valid (s : String) : Bool :=
  (!(s == "")) && s.toList.all (fun c => c.isUpper || c.isDigit)
    && s.toList.any (fun c => c.isUpper)

/-- `AssetRepository.get_ticker_to_binance_map`: ticker to feed symbol,
active assets only. -/
def ticker_to_binance_map (s : MarketState) : List (String × String) :=
  (s.assets.filter (fun a => a.is_active)).map (fun a => (a.ticker, a.binance_symbol))

/-- `AssetRepository.get_ticker_to_id_map`: ticker to id, all assets. -/
def ticker_to_id_map (s : MarketState) : List (String × Nat) :=
  s.assets.map (fun a => (a.ticker, a.id))

/-- Feed symbols the sync cycle would send to the feed. -/
def valid_symbols (tm : List (String × String)) : List String :=
  (tm.map (fun e => e.2)).filter is_feed_symbol_valid

/-- `MarketService._fetch_live_prices`: returns the fetched prices and
the number of feed calls made (zero when the map is empty or holds no
valid symbol; an exception from the client is caught and yields the
empty map). -/
def fetch_live_prices (tm : List (String × String)) (feed : FeedResult) :
    List (String × ℚ) × Nat :=
  if tm.isEmpty then ([], 0)
  else if (valid_symbols tm).isEmpty then ([], 0)
  else
    match feed with
    | .ok prices => (prices, 1)
    | .unavailable => ([], 1)

/-- `MarketService._persist_asset_update`: set the asset's price and
append one price-history row. -/
def persist_asset_update (st : MarketState) (asset_id : Nat) (price : ℚ) :
    MarketState :=
  { st with
    assets := st.assets.map (fun a =>
      if a.id == asset_id then { a with current_price := price } else a),
    price_history := st.price_history ++ [(asset_id, price)] }

/-- The `for my_ticker, binance_symbol in ticker_map.items()` loop of
`_update_prices`: entries missing from the fetched prices or from the
ticker-to-id map are skipped, the rest are persisted and accumulated. -/
def sync_assets (prices : List (String × ℚ)) (am : List (String × Nat)) :
    List (String × String) → MarketState → List (String × ℚ) →
    MarketState × List (String × ℚ)
  | [], st, ups => (st, ups)
  | e :: rest, st, ups =>
    match prices.lookup e.2, am.lookup e.1 with
    | some p, some aid =>
      sync_assets prices am rest (persist_asset_update st aid p) (ups ++ [(e.1, p)])
    | _, _ => sync_assets prices am rest st ups

/-- `MarketService._update_prices`: one sync cycle. Returns the state
after the cycle and the number of feed calls made. The session commit is
modelled by the returned state carrying all of the cycle's writes at
once; an early return leaves the state untouched. -/
def update_prices (s : MarketState) (feed : FeedResult) : MarketState × Nat :=
  let tm := ticker_to_binance_map s
  let pr := fetch_live_prices tm feed
  if pr.1.isEmpty then (s, pr.2)
  else
    let am := ticker_to_id_map s
    let r := sync_assets pr.1 am tm s []
    if r.2.isEmpty then (r.1, pr.2)
    else
      ({ r.1 with broadcasts :=
          r.1.broadcasts ++ [{ type := "market_update", data := r.2 }] }, pr.2)

/-- WebSocket subscriber handle: its identity and whether `send_json`
raises for it (a disconnected peer). -/
structure Conn where
  id : Nat
  failing : Bool
deriving DecidableEq, Repr

/-- `ConnectionManager.disconnect`: removes the first occurrence of the
connection if present. -/
def disconnect (conns : List Conn) (ws : Conn) : List Conn :=
  if ws ∈ conns then conns.erase ws else conns

/-- Loop body of `ConnectionManager.broadcast`: iterates over a copy of
the list; a failing send disconnects that subscriber, a successful send
is recorded in the delivery log. -/
def broadcast_aux : List Conn → List Conn → List Conn → List Conn × List Conn
  | [], conns, delivered => (conns, delivered)
  | c :: rest, conns, delivered =>
    if c.failing then broadcast_aux rest (disconnect conns c) delivered
    else broadcast_aux rest conns (delivered ++ [c])

/-- `ConnectionManager.broadcast`: returns the surviving connection list
and the list of subscribers the message was delivered to. The
`try/except` around each send makes the whole call total. -/
def broadcast (conns : List Conn) : List Conn × List Conn :=
  broadcast_aux conns conns []

/-- Data-model invariant: every account balance is nonnegative. -/
def balances_nonneg (db : DB) : Prop := ∀ u ∈ db.users, 0 ≤ u.balance

/-- Data-model invariant: every holding quantity is nonnegative. -/
def quantities_nonneg (db : DB) : Prop := ∀ p ∈ db.portfolios, 0 ≤ p.quantity

/-- Data-model invariant: every asset price is nonnegative. -/
def prices_nonneg (db : DB) : Prop := ∀ a ∈ db.assets, 0 ≤ a.current_price

/-- Primary-key uniqueness of the `users` table. -/
def user_ids_nodup (db : DB) : Prop := (db.users.map (fun u => u.id)).Nodup

/-- The `uq_user_asset` unique constraint of the `portfolios` table. -/
def portfolio_keys_nodup (db : DB) : Prop :=
  (db.portfolios.map (fun p => (p.user_id, p.asset_id))).Nodup

/-- Current price of the asset a holding points at (0 when missing). -/
def price_of (db : DB) (aid : Nat) : ℚ :=
  ((db.assets.find? (fun a => a.id == aid)).map (fun a => a.current_price)).getD 0

/-- Wallet valuation as the spec words it: the balance plus the sum over
the user's Portfolio holdings of quantity times the asset's current
price. Stated from the spec for comparison against `get_wallet`. -/
def total_value_from_spec (db : DB) (uid : Nat) (user : User) : ℚ :=
  user.balance + ((db.portfolios.filter (fun p => p.user_id == uid)).map
    (fun p => p.quantity * price_of db p.asset_id)).sum

/-- Entries the `_update_prices` loop acts on: `(ticker, asset id,
price)` for each entry of the ticker map, kept when both the fetched
prices and the ticker-to-id map resolve it. -/
def sync_collect (prices : List (String × ℚ)) (am : List (String × Nat))
    (tm : List (String × String)) : List (String × Nat × ℚ) :=
  tm.filterMap (fun e =>
    match prices.lookup e.2, am.lookup e.1 with
    | some p, some aid => some (e.1, aid, p)
    | _, _ => none)

/-- The assets a successful cycle updates, as the spec words it: the
active assets whose feed symbol appears in the fetched result, tagged
with the fetched price. -/
def fetched_updates (s : MarketState) (prices : List (String × ℚ)) :
    List (String × Nat × ℚ) :=
  (s.assets.filter (fun a => a.is_active)).filterMap (fun a =>
    (prices.lookup a.binance_symbol).map (fun p => (a.ticker, a.id, p)))

/-- Data-model invariant of the asset table (spec section 3): feed
symbols are case-normalized uppercase, here for the active assets a
cycle sends to the feed. -/
def active_symbols_valid (s : MarketState) : Prop :=
  ∀ a ∈ s.assets, a.is_active = true → is_feed_symbol_valid a.binance_symbol = true

/-- State after persisting a batch of collected updates in order. -/
def apply_sync (st : MarketState) (l : List (String × Nat × ℚ)) : MarketState :=
  l.foldl (fun st u => persist_asset_update st u.2.1 u.2.2) st

/-- The message `MarketService._broadcast_updates` constructs. -/
def market_update_message (ups : List (String × ℚ)) : MarketMessage :=
  { type := "market_update", data := ups }

/-- Sample user for concrete instantiations. -/
def sample_user : User := { id := 1, balance := 10000 }

/-- Sample asset for concrete instantiations. -/
def sample_asset : Asset :=
  { id := 1, ticker := "BTC", binance_symbol := "BTCUSDT",
    current_price := 100, is_active := true }

/-- Sample store with one user, one asset and no holdings. -/
def sample_db : DB :=
  { users := [sample_user], assets := [sample_asset],
    portfolios := [], transactions := [] }

/-- Sample holding of two units. -/
def sample_holding : Portfolio := { user_id := 1, asset_id := 1, quantity := 2 }

/-- Sample store where the user holds two units. -/
def sample_db2 : DB := { sample_db with portfolios := [sample_holding] }

/-- Sample holding of half a unit. -/
def sample_half_holding : Portfolio :=
  { user_id := 1, asset_id := 1, quantity := 1/2 }

/-- Sample store where the user holds half a unit. -/
def sample_db3 : DB := { sample_db with portfolios := [sample_half_holding] }

/-- Market state with no assets. -/
def sample_market_empty : MarketState :=
  { assets := [], price_history := [], broadcasts := [] }

/-- Market state tracking the sample asset. -/
def sample_market : MarketState :=
  { assets := [sample_asset], price_history := [], broadcasts := [] }

/-!
Helper lemmas shared by the claim theorems.
-/

/-- Lemma: `find?` commutes with a map that preserves the predicate. -/
theorem find?_map_pred {α : Type} (l : List α) (f : α → α) (p : α → Bool)
    (h : ∀ a, p (f a) = p a) : (l.map f).find? p = (l.find? p).map f := by
  induction l with
  | nil => rfl
  | cons a t ih =>
    cases hpa : p a
    · have hfa : p (f a) = false := by rw [h, hpa]
      rw [List.map_cons, List.find?_cons_of_neg _ (by simp [hfa]),
        List.find?_cons_of_neg _ (by simp [hpa]), ih]
    · have hfa : p (f a) = true := by rw [h, hpa]
      rw [List.map_cons, List.find?_cons_of_pos _ hfa, List.find?_cons_of_pos _ hpa,
        Option.map_some']

/-- Lemma: user lookup after a balance update. -/
theorem get_user_by_id_update_balance (db : DB) (uid tid : Nat) (delta : ℚ) :
    get_user_by_id (update_user_balance db tid delta) uid =
      (get_user_by_id db uid).map (fun u =>
        if u.id == tid then { u with balance := u.balance + delta } else u) := by
  unfold get_user_by_id update_user_balance
  exact find?_map_pred _ _ _ (fun a => by cases h : a.id == tid <;> simp [h])

/-- Lemma: holding lookup after a quantity update. -/
theorem get_by_user_and_asset_update_quantity (db : DB) (uid aid tu ta : Nat)
    (delta : ℚ) :
    get_by_user_and_asset (update_portfolio_quantity db tu ta delta) uid aid =
      (get_by_user_and_asset db uid aid).map (fun p =>
        if p.user_id == tu && p.asset_id == ta
        then { p with quantity := p.quantity + delta } else p) := by
  unfold get_by_user_and_asset update_portfolio_quantity
  exact find?_map_pred _ _ _ (fun a => by
    cases h : a.user_id == tu && a.asset_id == ta <;> simp [h])

/-!
Claim theorems.
-/

/-- C1: for every BUY trade where the user and asset exist, the amount is
positive and the balance covers `currentPrice * amount`, `execute_trade`
succeeds, debits the balance by exactly `amount * currentPrice`, credits
the holding by exactly `amount` (creating it at quantity `amount` when
absent) and appends exactly one BUY ledger row at the asset's current
price, all changes carried by the single committed state. -/
theorem buy_trade_correct (db : DB) (uid : Nat) (ticker : String) (amount : ℚ)
    (user : User) (asset : Asset)
    (hu : get_user_by_id db uid = some user)
    (ha : get_asset_by_ticker db ticker = some asset)
    (hamt : 0 < amount)
    (hbal : asset.current_price * amount ≤ user.balance) :
    ∃ db1 tx,
      execute_trade db uid ticker amount "BUY" = .ok (db1, tx) ∧
      (get_user_by_id db1 uid).map (fun u => u.balance)
        = some (user.balance - amount * asset.current_price) ∧
      (∀ p, get_by_user_and_asset db uid asset.id = some p →
        get_by_user_and_asset db1 uid asset.id
          = some { p with quantity := p.quantity + amount }) ∧
      (get_by_user_and_asset db uid asset.id = none →
        get_by_user_and_asset db1 uid asset.id
          = some { user_id := uid, asset_id := asset.id, quantity := amount }) ∧
      db1.transactions = db.transactions ++ [tx] ∧
      tx = { user_id := uid, asset_id := asset.id, amount := amount,
             price_at_transaction := asset.current_price, type := "BUY" } := by
  have hu' : db.users.find? (fun u => u.id == uid) = some user := hu
  have huid : user.id = uid := by simpa using List.find?_some hu'
  have hnlt : ¬ user.balance < asset.current_price * amount := not_lt.mpr hbal
  cases hpi : get_by_user_and_asset db uid asset.id with
  | some p =>
    have hpi' : db.portfolios.find?
        (fun q => q.user_id == uid && q.asset_id == asset.id) = some p := hpi
    have hp := List.find?_some hpi'
    unfold execute_trade
    rw [hu, ha]
    simp only [hpi, beq_self_eq_true, if_true, process_buy, if_neg hnlt]
    refine ⟨_, _, rfl, ?_, ?_, ?_, ?_, ?_⟩
    · show (get_user_by_id (update_user_balance db user.id
          (-(asset.current_price * amount))) uid).map (fun u => u.balance)
          = some (user.balance - amount * asset.current_price)
      rw [get_user_by_id_update_balance, hu]
      simp
      ring
    · intro q hq
      injection hq with hq
      subst hq
      show get_by_user_and_asset (update_portfolio_quantity (update_user_balance db user.id
          (-(asset.current_price * amount))) user.id asset.id amount) uid asset.id
          = some { p with quantity := p.quantity + amount }
      rw [get_by_user_and_asset_update_quantity]
      have hpe : get_by_user_and_asset (update_user_balance db user.id
          (-(asset.current_price * amount))) uid asset.id
          = get_by_user_and_asset db uid asset.id := rfl
      rw [hpe, hpi]
      have hp12 : p.user_id = uid ∧ p.asset_id = asset.id := by simpa using hp
      simp [huid, hp12.1, hp12.2]
    · intro hq
      exact Option.noConfusion hq
    · rfl
    · rw [huid]
  | none =>
    unfold execute_trade
    rw [hu, ha]
    simp only [hpi, beq_self_eq_true, if_true, process_buy, if_neg hnlt]
    refine ⟨_, _, rfl, ?_, ?_, ?_, ?_, ?_⟩
    · show (get_user_by_id (update_user_balance db user.id
          (-(asset.current_price * amount))) uid).map (fun u => u.balance)
          = some (user.balance - amount * asset.current_price)
      rw [get_user_by_id_update_balance, hu]
      simp
      ring
    · intro q hq
      exact Option.noConfusion hq
    · intro _
      show get_by_user_and_asset (create_portfolio (update_user_balance db user.id
          (-(asset.current_price * amount))) user.id asset.id amount) uid asset.id
          = some { user_id := uid, asset_id := asset.id, quantity := amount }
      unfold get_by_user_and_asset create_portfolio
      rw [List.find?_append]
      have hnone : db.portfolios.find? (fun q => q.user_id == uid && q.asset_id == asset.id)
          = none := hpi
      have hpe : (update_user_balance db user.id
          (-(asset.current_price * amount))).portfolios = db.portfolios := rfl
      rw [hpe, hnone]
      simp [List.find?, huid]
    · rfl
    · rw [huid]

/-- C2: for every SELL trade where the user and asset exist and the
amount is positive, a missing holding or one with quantity below the
amount makes `execute_trade` fail with `insufficientHolding`; otherwise
it credits the balance by exactly `amount * currentPrice`, debits the
holding by exactly `amount` and appends exactly one SELL ledger row at
the asset's current price. -/
theorem sell_trade_correct (db : DB) (uid : Nat) (ticker : String) (amount : ℚ)
    (user : User) (asset : Asset)
    (hu : get_user_by_id db uid = some user)
    (ha : get_asset_by_ticker db ticker = some asset)
    (hamt : 0 < amount) :
    (get_by_user_and_asset db uid asset.id = none →
      execute_trade db uid ticker amount "SELL" = .error .insufficientHolding) ∧
    (∀ p, get_by_user_and_asset db uid asset.id = some p →
      (p.quantity < amount →
        execute_trade db uid ticker amount "SELL" = .error .insufficientHolding) ∧
      (amount ≤ p.quantity →
        ∃ db1 tx,
          execute_trade db uid ticker amount "SELL" = .ok (db1, tx) ∧
          (get_user_by_id db1 uid).map (fun u => u.balance)
            = some (user.balance + amount * asset.current_price) ∧
          get_by_user_and_asset db1 uid asset.id
            = some { p with quantity := p.quantity - amount } ∧
          db1.transactions = db.transactions ++ [tx] ∧
          tx = { user_id := uid, asset_id := asset.id, amount := amount,
                 price_at_transaction := asset.current_price, type := "SELL" })) := by
  have hu' : db.users.find? (fun u => u.id == uid) = some user := hu
  have huid : user.id = uid := by simpa using List.find?_some hu'
  have hsb : ("SELL" == "BUY") = false := by decide
  have hss : ("SELL" == "SELL") = true := by decide
  constructor
  · intro hpi
    unfold execute_trade
    rw [hu, ha]
    simp only [hpi, hsb, hss, Bool.false_eq_true, if_false, if_true, process_sell]
  · intro p hpi
    have hpi' : db.portfolios.find?
        (fun q => q.user_id == uid && q.asset_id == asset.id) = some p := hpi
    have hp := List.find?_some hpi'
    have hp12 : p.user_id = uid ∧ p.asset_id = asset.id := by simpa using hp
    constructor
    · intro hlt
      unfold execute_trade
      rw [hu, ha]
      simp only [hpi, hsb, hss, Bool.false_eq_true, if_false, if_true, process_sell,
        if_pos hlt]
    · intro hge
      have hnlt : ¬ p.quantity < amount := not_lt.mpr hge
      unfold execute_trade
      rw [hu, ha]
      simp only [hpi, hsb, hss, Bool.false_eq_true, if_false, if_true, process_sell,
        if_neg hnlt]
      refine ⟨_, _, rfl, ?_, ?_, ?_, ?_⟩
      · show (get_user_by_id (update_user_balance db user.id
            (asset.current_price * amount)) uid).map (fun u => u.balance)
            = some (user.balance + amount * asset.current_price)
        rw [get_user_by_id_update_balance, hu]
        simp only [Option.map_some', beq_self_eq_true, if_true, Option.some.injEq]
        ring
      · show get_by_user_and_asset (update_portfolio_quantity (update_user_balance db user.id
            (asset.current_price * amount)) user.id asset.id (-amount)) uid asset.id
            = some { p with quantity := p.quantity - amount }
        rw [get_by_user_and_asset_update_quantity]
        have hpe : get_by_user_and_asset (update_user_balance db user.id
            (asset.current_price * amount)) uid asset.id
            = get_by_user_and_asset db uid asset.id := rfl
        rw [hpe, hpi]
        simp [huid, hp12.1, hp12.2, sub_eq_add_neg]
      · rfl
      · rw [huid]

/-- C3: an `execute_trade` call that fails for any reason raises before
the commit, so the visible state (balances, holdings and ledger alike)
is exactly the pre-call state. -/
theorem failed_trade_preserves_state (db : DB) (uid : Nat) (ticker : String)
    (amount : ℚ) (trade_type : String) (e : TradeError)
    (h : execute_trade db uid ticker amount trade_type = .error e) :
    execute_trade_db db uid ticker amount trade_type = db := by
  unfold execute_trade_db
  rw [h]

/-- C7: `reset_account` on an existing user deletes all of that user's
holdings and ledger rows, reports their counts, resets the balance to
the initial constant, and a second call on the resulting state deletes
nothing, returns the same balance and leaves the state unchanged. -/
theorem reset_account_idempotent (db : DB) (uid : Nat) (user : User)
    (hu : get_user_by_id db uid = some user) :
    ∃ db1,
      reset_account db uid = .ok (db1,
        { deleted_portfolio_items :=
            (db.portfolios.filter (fun p => p.user_id == uid)).length,
          deleted_transactions :=
            (db.transactions.filter (fun t => t.user_id == uid)).length,
          new_balance := INITIAL_BALANCE }) ∧
      db1.portfolios.filter (fun p => p.user_id == uid) = [] ∧
      db1.transactions.filter (fun t => t.user_id == uid) = [] ∧
      (get_user_by_id db1 uid).map (fun u => u.balance) = some INITIAL_BALANCE ∧
      reset_account db1 uid = .ok (db1,
        { deleted_portfolio_items := 0, deleted_transactions := 0,
          new_balance := INITIAL_BALANCE }) := by
  have hu' : db.users.find? (fun u => u.id == uid) = some user := hu
  have huid : user.id = uid := by simpa using List.find?_some hu'
  have hpf : ∀ q : Portfolio, ((q.user_id == uid) && (q.user_id != uid)) = false := by
    intro q
    cases h : q.user_id == uid <;> simp [bne, h]
  have htf : ∀ q : Transaction, ((q.user_id == uid) && (q.user_id != uid)) = false := by
    intro q
    cases h : q.user_id == uid <;> simp [bne, h]
  unfold reset_account
  rw [hu]
  simp only []
  refine ⟨_, rfl, ?_, ?_, ?_, ?_⟩
  · rw [List.filter_filter]
    simp only [hpf]
    exact List.filter_false _
  · rw [List.filter_filter]
    simp only [htf]
    exact List.filter_false _
  · show ((db.users.map (fun u =>
        if u.id == user.id then { u with balance := INITIAL_BALANCE } else u)).find?
        (fun u => u.id == uid)).map (fun u => u.balance) = some INITIAL_BALANCE
    rw [find?_map_pred _ _ _ (fun a => by cases h : a.id == user.id <;> simp [h]), hu']
    simp
  · have hg1 : get_user_by_id { db with
        portfolios := db.portfolios.filter (fun p => p.user_id != uid),
        transactions := db.transactions.filter (fun t => t.user_id != uid),
        users := db.users.map (fun u =>
          if u.id == user.id then { u with balance := INITIAL_BALANCE } else u) } uid
        = some { user with balance := INITIAL_BALANCE } := by
      show (db.users.map (fun u =>
          if u.id == user.id then { u with balance := INITIAL_BALANCE } else u)).find?
          (fun u => u.id == uid) = _
      rw [find?_map_pred _ _ _ (fun a => by cases h : a.id == user.id <;> simp [h]), hu']
      simp
    rw [hg1]
    simp only [List.filter_filter]
    simp only [hpf, htf, Bool.and_self]
    simp only [List.filter_false, List.length_nil]
    have husers : db.users.map ((fun u : User =>
        if u.id == user.id then { id := u.id, balance := INITIAL_BALANCE } else u) ∘
        (fun u : User =>
        if u.id == user.id then { id := u.id, balance := INITIAL_BALANCE } else u))
        = db.users.map (fun u : User =>
        if u.id == user.id then { id := u.id, balance := INITIAL_BALANCE } else u) :=
      List.map_congr_left (fun u _ => by by_cases h : u.id = user.id <;> simp [h])
    rw [List.map_map, husers]

/-- Lemma: a successful `process_buy` keeps balances and quantities
nonnegative, given the table invariants of the starting state. -/
theorem process_buy_preserves (db : DB) (user : User) (asset : Asset)
    (pitem : Option Portfolio) (amount cost : ℚ) (db1 : DB)
    (h : process_buy db user asset pitem amount cost = .ok db1)
    (hmem : user ∈ db.users)
    (hwfu : user_ids_nodup db)
    (hb : balances_nonneg db) (hq : quantities_nonneg db) (hamt : 0 ≤ amount) :
    balances_nonneg db1 ∧ quantities_nonneg db1 := by
  unfold process_buy at h
  by_cases hc : user.balance < cost
  · rw [if_pos hc] at h
    exact Except.noConfusion h
  · rw [if_neg hc] at h
    have hb1 : balances_nonneg (update_user_balance db user.id (-cost)) := by
      intro u' hm
      obtain ⟨u, hum, rfl⟩ := List.mem_map.mp hm
      by_cases hid : u.id = user.id
      · have hueq : u = user := List.inj_on_of_nodup_map hwfu hum hmem hid
        subst hueq
        simp only [beq_self_eq_true, if_true]
        have := not_lt.mp hc
        show 0 ≤ u.balance + -cost
        linarith
      · simpa [hid] using hb u hum
    cases pitem with
    | some p =>
      injection h with h
      subst h
      refine ⟨fun u' hm => hb1 u' hm, ?_⟩
      intro p' hm
      obtain ⟨q, hqm, rfl⟩ := List.mem_map.mp hm
      cases hk : (q.user_id == user.id && q.asset_id == asset.id)
      · simpa [hk] using hq q hqm
      · have : 0 ≤ q.quantity + amount := add_nonneg (hq q hqm) hamt
        simpa [hk] using this
    | none =>
      injection h with h
      subst h
      refine ⟨fun u' hm => hb1 u' hm, ?_⟩
      intro p' hm
      rcases List.mem_append.mp hm with hmo | hmn
      · exact hq p' hmo
      · have : p' = { user_id := user.id, asset_id := asset.id, quantity := amount } := by
          simpa using hmn
        subst this
        exact hamt

/-- Lemma: a successful `process_sell` keeps balances and quantities
nonnegative, given a nonnegative income and the table invariants. -/
theorem process_sell_preserves (db : DB) (user : User) (asset : Asset)
    (p : Portfolio) (amount income : ℚ) (db1 : DB)
    (h : process_sell db user asset (some p) amount income = .ok db1)
    (hinc : 0 ≤ income)
    (hpmem : p ∈ db.portfolios)
    (hkey : (p.user_id == user.id && p.asset_id == asset.id) = true)
    (hwfp : portfolio_keys_nodup db)
    (hb : balances_nonneg db) (hq : quantities_nonneg db) :
    balances_nonneg db1 ∧ quantities_nonneg db1 := by
  have h2 : (if p.quantity < amount then (.error .insufficientHolding : Except TradeError DB)
      else .ok (update_portfolio_quantity (update_user_balance db user.id income)
        user.id asset.id (-amount))) = .ok db1 := h
  by_cases hlt : p.quantity < amount
  · rw [if_pos hlt] at h2
    exact Except.noConfusion h2
  · rw [if_neg hlt] at h2
    injection h2 with h2
    subst h2
    constructor
    · intro u' hm
      obtain ⟨u, hum, rfl⟩ := List.mem_map.mp hm
      cases hid : u.id == user.id
      · simpa [hid] using hb u hum
      · have : 0 ≤ u.balance + income := add_nonneg (hb u hum) hinc
        simpa [hid] using this
    · intro p' hm
      obtain ⟨q, hqm, rfl⟩ := List.mem_map.mp hm
      cases hk : (q.user_id == user.id && q.asset_id == asset.id)
      · simpa [hk] using hq q hqm
      · have hkq : (q.user_id, q.asset_id) = (p.user_id, p.asset_id) := by
          have h1 : q.user_id = user.id ∧ q.asset_id = asset.id := by simpa using hk
          have h2 : p.user_id = user.id ∧ p.asset_id = asset.id := by simpa using hkey
          rw [h1.1, h1.2, h2.1, h2.2]
        have hqp : q = p := List.inj_on_of_nodup_map hwfp hqm hpmem hkq
        subst hqp
        have hge := not_lt.mp hlt
        have : 0 ≤ q.quantity + -amount := by linarith
        simpa [hk] using this

/-- C4: every trade-engine operation (BUY, SELL with any trade-type
string, and account reset) preserves nonnegativity of every balance and
every holding quantity, for any starting state satisfying those
invariants together with the data-model side conditions (nonnegative
asset prices and table-key uniqueness) and any positive amount. -/
theorem trade_ops_preserve_invariant (db : DB) (uid : Nat) (ticker : String)
    (amount : ℚ) (trade_type : String)
    (hwfu : user_ids_nodup db) (hwfp : portfolio_keys_nodup db)
    (hb : balances_nonneg db) (hq : quantities_nonneg db) (hpr : prices_nonneg db)
    (hamt : 0 < amount) :
    (balances_nonneg (execute_trade_db db uid ticker amount trade_type) ∧
     quantities_nonneg (execute_trade_db db uid ticker amount trade_type)) ∧
    (balances_nonneg (reset_account_db db uid) ∧
     quantities_nonneg (reset_account_db db uid)) := by
  constructor
  · unfold execute_trade_db
    cases hr : execute_trade db uid ticker amount trade_type with
    | error e => exact ⟨hb, hq⟩
    | ok r =>
      unfold execute_trade at hr
      cases hu : get_user_by_id db uid with
      | none =>
        simp only [hu] at hr
        exact Except.noConfusion hr
      | some user =>
        simp only [hu] at hr
        have hu2 : db.users.find? (fun u => u.id == uid) = some user := hu
        have humem : user ∈ db.users := List.mem_of_find?_eq_some hu2
        have huid : user.id = uid := by simpa using List.find?_some hu2
        cases ha : get_asset_by_ticker db ticker with
        | none =>
          simp only [ha] at hr
          exact Except.noConfusion hr
        | some asset =>
          simp only [ha] at hr
          have ha2 : db.assets.find? (fun a => a.ticker == ticker) = some asset := ha
          have hamem : asset ∈ db.assets := List.mem_of_find?_eq_some ha2
          by_cases htb : (trade_type == "BUY") = true
          · rw [if_pos htb] at hr
            cases hpb : process_buy db user asset (get_by_user_and_asset db uid asset.id)
                amount (asset.current_price * amount) with
            | error e =>
              simp only [hpb] at hr
              exact Except.noConfusion hr
            | ok db2 =>
              simp only [hpb] at hr
              injection hr with hr2
              subst hr2
              exact process_buy_preserves db user asset _ amount _ db2 hpb humem hwfu
                hb hq hamt.le
          · rw [if_neg htb] at hr
            by_cases hts : (trade_type == "SELL") = true
            · rw [if_pos hts] at hr
              cases hgp : get_by_user_and_asset db uid asset.id with
              | none =>
                simp only [hgp, process_sell] at hr
                exact Except.noConfusion hr
              | some p =>
                simp only [hgp] at hr
                have hgp2 : db.portfolios.find?
                    (fun q => q.user_id == uid && q.asset_id == asset.id) = some p := hgp
                have hpmem : p ∈ db.portfolios := List.mem_of_find?_eq_some hgp2
                have hkey0 := List.find?_some hgp2
                have hkey : (p.user_id == user.id && p.asset_id == asset.id) = true := by
                  rw [huid]
                  exact hkey0
                cases hps : process_sell db user asset (some p) amount
                    (asset.current_price * amount) with
                | error e =>
                  simp only [hps] at hr
                  exact Except.noConfusion hr
                | ok db2 =>
                  simp only [hps] at hr
                  injection hr with hr2
                  subst hr2
                  exact process_sell_preserves db user asset p amount _ db2 hps
                    (mul_nonneg (hpr asset hamem) hamt.le) hpmem hkey hwfp hb hq
            · rw [if_neg hts] at hr
              exact Except.noConfusion hr
  · unfold reset_account_db
    cases hru : reset_account db uid with
    | error e => exact ⟨hb, hq⟩
    | ok r =>
      unfold reset_account at hru
      cases hu : get_user_by_id db uid with
      | none =>
        simp only [hu] at hru
        exact Except.noConfusion hru
      | some user =>
        simp only [hu] at hru
        injection hru with hru2
        subst hru2
        constructor
        · intro u' hm
          obtain ⟨u, hum, rfl⟩ := List.mem_map.mp hm
          cases hid : u.id == user.id
          · simpa [hid] using hb u hum
          · have h0 : (0 : ℚ) ≤ INITIAL_BALANCE := by norm_num [INITIAL_BALANCE]
            simpa [hid] using h0
        · intro p' hm
          exact hq p' (List.mem_of_mem_filter hm)

/-- C5: the `get_wallet` ledger replay per ticker follows the
weighted-average cost-basis rules: a BUY adds `amount` to the quantity,
`amount * price` to the total cost and sets the average to their
quotient; a SELL subtracts `amount` from the quantity and
`amount * avg_price` (the running average, not the trade price) from the
total cost, leaving the average unchanged, except that a running
quantity at or below zero resets quantity and total cost to zero. On the
ledger [BUY 2@100, BUY 1@200] the average is 400/3, and a subsequent
SELL 1 leaves quantity 2 with total cost reduced by 400/3. -/
theorem wallet_replay_average_cost (stats : AssetStats) (amount price : ℚ) :
    (0 < stats.quantity + amount →
      wallet_stats_step stats "BUY" amount price =
        { total_cost := stats.total_cost + amount * price,
          quantity := stats.quantity + amount,
          avg_price := (stats.total_cost + amount * price) / (stats.quantity + amount) }) ∧
    (0 < stats.quantity - amount →
      wallet_stats_step stats "SELL" amount price =
        { total_cost := stats.total_cost - amount * stats.avg_price,
          quantity := stats.quantity - amount,
          avg_price := stats.avg_price }) ∧
    (stats.quantity - amount ≤ 0 →
      wallet_stats_step stats "SELL" amount price =
        { total_cost := 0, quantity := 0, avg_price := 0 }) ∧
    (replay_ledger [("BUY", 2, 100), ("BUY", 1, 200)]).avg_price = 400 / 3 ∧
    replay_ledger [("BUY", 2, 100), ("BUY", 1, 200), ("SELL", 1, 150)] =
      { total_cost := 400 - 400 / 3, quantity := 2, avg_price := 400 / 3 } := by
  have hsb : ("SELL" == "BUY") = false := by decide
  refine ⟨?_, ?_, ?_, ?_, ?_⟩
  · intro h
    unfold wallet_stats_step
    simp only [beq_self_eq_true, if_true, if_pos h]
  · intro h
    unfold wallet_stats_step
    simp only [hsb, Bool.false_eq_true, if_false, beq_self_eq_true, if_true,
      if_neg (not_le.mpr h)]
  · intro h
    unfold wallet_stats_step
    simp only [hsb, Bool.false_eq_true, if_false, beq_self_eq_true, if_true, if_pos h]
  · norm_num [replay_ledger, wallet_stats_step]
  · norm_num [replay_ledger, wallet_stats_step]
    decide

/-- Lemma: summing the `value` field over the wallet's asset entries
equals summing quantity times current price over the holdings, when
every holding's asset row exists. -/
theorem sum_filterMap_entries (db : DB) (uid : Nat) (l : List Portfolio)
    (h : ∀ p ∈ l, (db.assets.find? (fun a => a.id == p.asset_id)).isSome) :
    ((l.filterMap (fun p =>
        match db.assets.find? (fun a => a.id == p.asset_id) with
        | none => none
        | some a => some
            { ticker := a.ticker, amount := p.quantity,
              current_price := a.current_price,
              value := p.quantity * a.current_price,
              average_buy_price := user_avg_price db uid a.ticker : WalletAsset })).map
      (fun e => e.value)).sum
      = (l.map (fun p => p.quantity * price_of db p.asset_id)).sum := by
  induction l with
  | nil => rfl
  | cons p t ih =>
    have hp := h p (List.mem_cons_self p t)
    obtain ⟨a, ha⟩ := Option.isSome_iff_exists.mp hp
    simp only [List.filterMap_cons, ha, List.map_cons, List.sum_cons, price_of]
    rw [ih (fun q hq => h q (List.mem_cons_of_mem p hq))]
    simp [price_of, ha]

/-- C6: for an existing user whose holdings all reference existing
assets, `get_wallet` reports `total_value` equal to the balance plus the
sum over the Portfolio holdings of quantity times the asset's current
price; the quantities come from the holdings (not the ledger replay) and
the average-cost figure does not enter the sum. -/
theorem wallet_total_value_correct (db : DB) (uid : Nat) (user : User)
    (hu : get_user_by_id db uid = some user)
    (hassets : ∀ p ∈ db.portfolios.filter (fun p => p.user_id == uid),
      (db.assets.find? (fun a => a.id == p.asset_id)).isSome) :
    (get_wallet db uid).map (fun w => w.total_value)
      = some (total_value_from_spec db uid user) := by
  unfold get_wallet
  rw [hu]
  simp only [Option.map_some']
  unfold total_value_from_spec
  rw [sum_filterMap_entries db uid _ hassets]

/-- C8: a sync cycle that obtains no prices is a no-op: with an empty
active map or no feed-symbol-valid entry it makes zero feed calls and
returns the state untouched (no price change, no history row, no
broadcast), and a `FeedUnavailable` failure is absorbed with the state
likewise untouched. -/
theorem sync_cycle_no_prices_noop (s : MarketState) (feed : FeedResult) :
    ((ticker_to_binance_map s = [] ∨ valid_symbols (ticker_to_binance_map s) = []) →
      update_prices s feed = (s, 0)) ∧
    (update_prices s .unavailable).1 = s := by
  constructor
  · intro h
    unfold update_prices fetch_live_prices
    rcases h with h | h
    · simp [h]
    · by_cases h1 : (ticker_to_binance_map s).isEmpty
      · simp [h1]
      · simp [h1, h]
  · unfold update_prices fetch_live_prices
    by_cases h1 : (ticker_to_binance_map s).isEmpty <;>
      by_cases h2 : (valid_symbols (ticker_to_binance_map s)).isEmpty <;>
        simp [h1, h2]

/-- Lemma: `disconnect` is erasure of the first occurrence. -/
theorem disconnect_eq_erase (conns : List Conn) (ws : Conn) :
    disconnect conns ws = conns.erase ws := by
  unfold disconnect
  by_cases h : ws ∈ conns
  · rw [if_pos h]
  · rw [if_neg h, List.erase_of_not_mem h]

/-- Lemma: the broadcast loop erases exactly the failing subscribers of
the visited list and delivers to exactly the non-failing ones, in
order. -/
theorem broadcast_aux_spec (l conns delivered : List Conn) :
    broadcast_aux l conns delivered =
      ((l.filter (fun c => c.failing)).foldl (fun cs c => cs.erase c) conns,
        delivered ++ l.filter (fun c => !c.failing)) := by
  induction l generalizing conns delivered with
  | nil => simp [broadcast_aux]
  | cons c rest ih =>
    cases hf : c.failing
    · simp [broadcast_aux, hf, ih]
    · simp [broadcast_aux, hf, ih, disconnect_eq_erase]

/-- Lemma: on a duplicate-free list, erasing the failing subscribers
leaves exactly the non-failing ones. -/
theorem foldl_erase_filter (conns : List Conn) (hnd : conns.Nodup) :
    (conns.filter (fun c => c.failing)).foldl (fun cs c => cs.erase c) conns
      = conns.filter (fun c => !c.failing) := by
  have h1 : (conns.filter (fun c => c.failing)).foldl (fun cs c => cs.erase c) conns
      = conns.diff (conns.filter (fun c => c.failing)) :=
    (List.diff_eq_foldl _ _).symm
  rw [h1, hnd.diff_eq_filter]
  apply List.filter_congr
  intro c hc
  cases hcf : c.failing
  · have hnm : c ∉ conns.filter (fun c => c.failing) := by
      intro hmem
      have := (List.mem_filter.mp hmem).2
      rw [hcf] at this
      exact Bool.noConfusion this
    simp [hnm, hcf]
  · have hmm : c ∈ conns.filter (fun c => c.failing) :=
      List.mem_filter.mpr ⟨hc, hcf⟩
    simp [hmm, hcf]

/-- C10: `broadcast` attempts delivery to every subscriber present when
it starts and never raises; with duplicate-free handles, the message is
delivered to exactly the non-failing subscribers in order and exactly
the failing ones are removed from the set. -/
theorem broadcast_correct (conns : List Conn) (hnd : conns.Nodup) :
    broadcast conns = (conns.filter (fun c => !c.failing),
                       conns.filter (fun c => !c.failing)) := by
  unfold broadcast
  rw [broadcast_aux_spec, foldl_erase_filter conns hnd]
  simp

/-- Lemma: looking up a key absent from the key column yields none. -/
theorem lookup_eq_none_of_not_mem {β : Type} (l : List (Nat × β)) (k : Nat)
    (h : k ∉ l.map (fun e => e.1)) : l.lookup k = none := by
  induction l with
  | nil => rfl
  | cons e t ih =>
    have hk : (k == e.1) = false := by
      have : k ≠ e.1 := fun he => h (by simp [List.map_cons, he.symm])
      simpa using this
    simp only [List.lookup, hk]
    exact ih (fun hm => h (by simp [List.map_cons, hm]))

/-- Lemma: with duplicate-free keys, lookup finds a member pair. -/
theorem lookup_of_mem_nodup {β : Type} (l : List (Nat × β)) (k : Nat) (v : β)
    (hnd : (l.map (fun e => e.1)).Nodup) (hm : (k, v) ∈ l) :
    l.lookup k = some v := by
  induction l with
  | nil => cases hm
  | cons e t ih =>
    rcases List.mem_cons.mp hm with rfl | hmt
    · simp [List.lookup]
    · have hne : (k == e.1) = false := by
        have hhead : e.1 ∉ t.map (fun e => e.1) := (List.nodup_cons.mp hnd).1
        have hkmem : k ∈ t.map (fun e => e.1) :=
          List.mem_map.mpr ⟨(k, v), hmt, rfl⟩
        have : k ≠ e.1 := fun he => hhead (he ▸ hkmem)
        simpa using this
      simp only [List.lookup, hne]
      exact ih (List.nodup_cons.mp hnd).2 hmt

/-- Lemma: with duplicate-free tickers, the ticker-to-id map resolves
each asset to its own id. -/
theorem lookup_ticker_id (l : List Asset)
    (hT : (l.map (fun a => a.ticker)).Nodup) (a : Asset) (ha : a ∈ l) :
    (l.map (fun a => (a.ticker, a.id))).lookup a.ticker = some a.id := by
  induction l with
  | nil => cases ha
  | cons b t ih =>
    rcases List.mem_cons.mp ha with rfl | hat
    · simp [List.lookup]
    · have hne : (a.ticker == b.ticker) = false := by
        have hhead : b.ticker ∉ t.map (fun a => a.ticker) := (List.nodup_cons.mp hT).1
        have hmem : a.ticker ∈ t.map (fun a => a.ticker) :=
          List.mem_map.mpr ⟨a, hat, rfl⟩
        have : a.ticker ≠ b.ticker := fun he => hhead (he.symm ▸ hmem)
        simpa using this
      simp only [List.map_cons, List.lookup, hne]
      exact ih (List.nodup_cons.mp hT).2 hat

/-- Lemma: the `_update_prices` loop equals a fold of the per-asset
persist step over the collected entries, with the update batch
accumulated alongside. -/
theorem sync_assets_spec (prices : List (String × ℚ)) (am : List (String × Nat))
    (tm : List (String × String)) (st : MarketState) (ups : List (String × ℚ)) :
    sync_assets prices am tm st ups =
      ((sync_collect prices am tm).foldl
        (fun s u => persist_asset_update s u.2.1 u.2.2) st,
       ups ++ (sync_collect prices am tm).map (fun u => (u.1, u.2.2))) := by
  induction tm generalizing st ups with
  | nil => simp [sync_assets, sync_collect]
  | cons e rest ih =>
    cases hp : prices.lookup e.2 with
    | none =>
      cases ha : am.lookup e.1 with
      | none => simp [sync_assets, sync_collect, hp, ha, ih]
      | some aid => simp [sync_assets, sync_collect, hp, ha, ih]
    | some p =>
      cases ha : am.lookup e.1 with
      | none => simp [sync_assets, sync_collect, hp, ha, ih]
      | some aid => simp [sync_assets, sync_collect, hp, ha, ih]

/-- Lemma: the persist fold appends one history row per entry, in
order. -/
theorem foldl_persist_history (l : List (String × Nat × ℚ)) (st : MarketState) :
    (l.foldl (fun s u => persist_asset_update s u.2.1 u.2.2) st).price_history
      = st.price_history ++ l.map (fun u => (u.2.1, u.2.2)) := by
  induction l generalizing st with
  | nil => simp
  | cons u rest ih =>
    rw [List.foldl_cons, ih]
    simp [persist_asset_update]

/-- Lemma: the persist fold does not broadcast. -/
theorem foldl_persist_broadcasts (l : List (String × Nat × ℚ)) (st : MarketState) :
    (l.foldl (fun s u => persist_asset_update s u.2.1 u.2.2) st).broadcasts
      = st.broadcasts := by
  induction l generalizing st with
  | nil => rfl
  | cons u rest ih =>
    rw [List.foldl_cons, ih]
    simp [persist_asset_update]

/-- Lemma: with duplicate-free entry keys, the persist fold rewrites
each asset's price to its entry's price and leaves the others alone. -/
theorem foldl_persist_assets (l : List (String × Nat × ℚ)) (st : MarketState)
    (hnd : (l.map (fun u => u.2.1)).Nodup) :
    (l.foldl (fun s u => persist_asset_update s u.2.1 u.2.2) st).assets
      = st.assets.map (fun a =>
          match (l.map (fun u => u.2)).lookup a.id with
          | some p => { a with current_price := p }
          | none => a) := by
  induction l generalizing st with
  | nil =>
    simp only [List.foldl_nil, List.map_nil]
    rw [show (fun (a : Asset) =>
        match ([] : List (Nat × ℚ)).lookup a.id with
        | some p => { a with current_price := p }
        | none => a) = (fun a => a) from rfl]
    exact (List.map_id' _).symm
  | cons u rest ih =>
    rw [List.foldl_cons, ih _ (List.nodup_cons.mp hnd).2]
    rw [show (persist_asset_update st u.2.1 u.2.2).assets
        = st.assets.map (fun a =>
            if a.id == u.2.1 then { a with current_price := u.2.2 } else a) from rfl]
    rw [List.map_map]
    apply List.map_congr_left
    intro a _
    simp only [Function.comp_apply]
    cases hid : a.id == u.2.1 with
    | false =>
      simp only [hid, Bool.false_eq_true, if_false, List.map_cons, List.lookup]
    | true =>
      have hae : a.id = u.2.1 := by simpa using hid
      have hnr : (rest.map (fun u => u.2)).lookup a.id = none := by
        apply lookup_eq_none_of_not_mem
        intro hmem
        apply (List.nodup_cons.mp hnd).1
        show u.2.1 ∈ List.map (fun u => u.2.1) rest
        rw [← hae]
        simpa [List.map_map, Function.comp] using hmem
      simp only [hid, if_true, List.map_cons, List.lookup]
      rw [show ({ a with current_price := u.2.2 } : Asset).id = a.id from rfl, hnr]

/-- Lemma: membership in the fetched-update batch characterizes exactly
the active assets whose feed symbol was priced. -/
theorem mem_fetched_updates (s : MarketState) (prices : List (String × ℚ))
    (x : String × Nat × ℚ) :
    x ∈ fetched_updates s prices ↔
      ∃ a ∈ s.assets, a.is_active = true ∧
        prices.lookup a.binance_symbol = some x.2.2 ∧ x.1 = a.ticker ∧ x.2.1 = a.id := by
  unfold fetched_updates
  rw [List.mem_filterMap]
  constructor
  · rintro ⟨a, hma, hga⟩
    have hmem := List.mem_filter.mp hma
    cases hl : prices.lookup a.binance_symbol with
    | none =>
      rw [hl] at hga
      exact Option.noConfusion hga
    | some p =>
      rw [hl] at hga
      injection hga with hga
      subst hga
      exact ⟨a, hmem.1, hmem.2, hl, rfl, rfl⟩
  · rintro ⟨a, hma, hact, hlk, h1, h2⟩
    refine ⟨a, List.mem_filter.mpr ⟨hma, hact⟩, ?_⟩
    rw [hlk, Option.map_some']
    rw [show (a.ticker, a.id, x.2.2) = (x.1, x.2.1, x.2.2) by rw [h1, h2]]

/-- Lemma: the fetched-update batch carries duplicate-free asset ids
when the asset table does. -/
theorem nodup_key_filterMap (l : List Asset) (prices : List (String × ℚ))
    (hnd : (l.map (fun a => a.id)).Nodup) :
    ((l.filterMap (fun a => (prices.lookup a.binance_symbol).map
        (fun p => (a.ticker, a.id, p)))).map (fun u => u.2.1)).Nodup := by
  induction l with
  | nil => simp
  | cons a t ih =>
    cases hl : prices.lookup a.binance_symbol with
    | none =>
      simp only [List.filterMap_cons, hl, Option.map_none']
      exact ih (List.nodup_cons.mp hnd).2
    | some p =>
      simp only [List.filterMap_cons, hl, Option.map_some', List.map_cons]
      rw [List.nodup_cons]
      refine ⟨?_, ih (List.nodup_cons.mp hnd).2⟩
      intro hmem
      apply (List.nodup_cons.mp hnd).1
      obtain ⟨u, hu, hui⟩ := List.mem_map.mp hmem
      obtain ⟨b, hb, hgb⟩ := List.mem_filterMap.mp hu
      cases hlb : prices.lookup b.binance_symbol with
      | none =>
        rw [hlb] at hgb
        exact Option.noConfusion hgb
      | some q =>
        rw [hlb] at hgb
        injection hgb with hgb
        subst hgb
        exact List.mem_map.mpr ⟨b, hb, by simpa using hui⟩

/-- Lemma: under duplicate-free tickers, the loop's collected entries
are exactly the fetched updates of the spec. -/
theorem collect_eq_fetched (s : MarketState) (prices : List (String × ℚ))
    (hT : (s.assets.map (fun a => a.ticker)).Nodup) :
    sync_collect prices (ticker_to_id_map s) (ticker_to_binance_map s)
      = fetched_updates s prices := by
  unfold sync_collect ticker_to_binance_map fetched_updates ticker_to_id_map
  rw [List.filterMap_map]
  apply List.filterMap_congr
  intro a ha
  have hmem : a ∈ s.assets := (List.mem_filter.mp ha).1
  have hlk : (s.assets.map (fun a => (a.ticker, a.id))).lookup a.ticker = some a.id :=
    lookup_ticker_id s.assets hT a hmem
  simp only [Function.comp_apply]
  cases hl : prices.lookup a.binance_symbol with
  | none => simp [hl]
  | some p => simp [hl, hlk]

/-- C9: in every successful sync cycle, exactly the active assets whose
feed symbol appears in the fetched result get their price set to the
fetched price, each gains exactly one price-history row (appended even
when the price is unchanged), all carried by the single committed state,
and when at least one update was produced exactly one `market_update`
message holding the full batch of ticker-price records is broadcast.
Hypotheses are the data-model invariants: unique tickers, unique ids and
uppercase feed symbols for active assets. -/
theorem sync_cycle_success (s : MarketState) (prices : List (String × ℚ))
    (hT : (s.assets.map (fun a => a.ticker)).Nodup)
    (hI : (s.assets.map (fun a => a.id)).Nodup)
    (hV : active_symbols_valid s) :
    (update_prices s (.ok prices)).1.assets = s.assets.map (fun a =>
        match (if a.is_active then prices.lookup a.binance_symbol else none) with
        | some p => { a with current_price := p }
        | none => a) ∧
    (update_prices s (.ok prices)).1.price_history
        = s.price_history ++ (fetched_updates s prices).map (fun u => (u.2.1, u.2.2)) ∧
    (update_prices s (.ok prices)).1.broadcasts
        = (if (fetched_updates s prices).isEmpty then s.broadcasts
           else s.broadcasts ++
             [market_update_message
               ((fetched_updates s prices).map (fun u => (u.1, u.2.2)))]) := by
  cases htm : (ticker_to_binance_map s).isEmpty with
  | true =>
    have htm2 : ticker_to_binance_map s = [] := List.isEmpty_iff.mp htm
    have hfa : s.assets.filter (fun a => a.is_active) = [] := by
      unfold ticker_to_binance_map at htm2
      exact List.map_eq_nil_iff.mp htm2
    have hupd : update_prices s (.ok prices) = (s, 0) := by
      unfold update_prices fetch_live_prices
      simp [htm2]
    have hfet : fetched_updates s prices = [] := by
      unfold fetched_updates
      rw [hfa]
      rfl
    rw [hupd, hfet]
    refine ⟨?_, by simp, by simp⟩
    show s.assets = _
    have hact : ∀ a ∈ s.assets, a.is_active = false := by
      intro a ha
      have := List.filter_eq_nil_iff.mp hfa a ha
      simpa using this
    have hcongr : s.assets.map (fun a =>
        match (if a.is_active then prices.lookup a.binance_symbol else none) with
        | some p => { a with current_price := p }
        | none => a) = s.assets.map (fun a => a) :=
      List.map_congr_left (fun a ha => by simp [hact a ha])
    rw [hcongr, List.map_id']
  | false =>
    have hvs : (valid_symbols (ticker_to_binance_map s)).isEmpty = false := by
      cases hfa : s.assets.filter (fun a => a.is_active) with
      | nil =>
        exfalso
        have : ticker_to_binance_map s = [] := by
          unfold ticker_to_binance_map
          rw [hfa]
          rfl
        rw [this] at htm
        exact Bool.noConfusion htm
      | cons b t =>
        have hbm : b ∈ s.assets.filter (fun a => a.is_active) := by
          rw [hfa]
          exact List.mem_cons_self b t
        have hbmem := List.mem_filter.mp hbm
        have hval := hV b hbmem.1 hbmem.2
        have hmem2 : b.binance_symbol ∈ valid_symbols (ticker_to_binance_map s) := by
          unfold valid_symbols ticker_to_binance_map
          rw [List.map_map]
          exact List.mem_filter.mpr ⟨List.mem_map.mpr ⟨b, hbm, rfl⟩, hval⟩
        cases hve : valid_symbols (ticker_to_binance_map s) with
        | nil =>
          rw [hve] at hmem2
          cases hmem2
        | cons x xs => rfl
    cases hpr : prices.isEmpty with
    | true =>
      have hpe : prices = [] := List.isEmpty_iff.mp hpr
      subst hpe
      have hupd : update_prices s (.ok []) = (s, 1) := by
        unfold update_prices fetch_live_prices
        simp [htm, hvs]
      have hfet : fetched_updates s [] = [] := by
        unfold fetched_updates
        rw [show (fun (a : Asset) => (([] : List (String × ℚ)).lookup a.binance_symbol).map
            (fun p => (a.ticker, a.id, p))) = fun a => (none : Option (String × Nat × ℚ))
          from rfl]
        simp
      rw [hupd, hfet]
      refine ⟨?_, by simp, by simp⟩
      show s.assets = _
      have hcongr : s.assets.map (fun a =>
          match (if a.is_active then ([] : List (String × ℚ)).lookup a.binance_symbol
            else none) with
          | some p => { a with current_price := p }
          | none => a) = s.assets.map (fun a => a) :=
        List.map_congr_left (fun a _ => by cases a.is_active <;> simp [List.lookup])
      rw [hcongr, List.map_id']
    | false =>
      have hnod : ((fetched_updates s prices).map (fun u => u.2.1)).Nodup := by
        apply nodup_key_filterMap
        exact List.Nodup.sublist
          (List.Sublist.map (fun a => a.id) (List.filter_sublist s.assets)) hI
      have hupd : update_prices s (.ok prices) =
          (if ((fetched_updates s prices).map (fun u => (u.1, u.2.2))).isEmpty
           then (apply_sync s (fetched_updates s prices), 1)
           else ({ apply_sync s (fetched_updates s prices) with
                   broadcasts := (apply_sync s (fetched_updates s prices)).broadcasts
                     ++ [market_update_message ((fetched_updates s prices).map
                          (fun u => (u.1, u.2.2)))] }, 1)) := by
        unfold update_prices fetch_live_prices
        simp only [htm, hvs, Bool.false_eq_true, if_false, hpr]
        rw [sync_assets_spec, collect_eq_fetched s prices hT]
        simp only [List.nil_append]
        rfl
      have hassets1 : (apply_sync s (fetched_updates s prices)).assets
          = s.assets.map (fun a =>
              match ((fetched_updates s prices).map (fun u => u.2)).lookup a.id with
              | some p => { a with current_price := p }
              | none => a) := foldl_persist_assets _ _ hnod
      have hassets : (apply_sync s (fetched_updates s prices)).assets
          = s.assets.map (fun a =>
              match (if a.is_active then prices.lookup a.binance_symbol else none) with
              | some p => { a with current_price := p }
              | none => a) := by
        rw [hassets1]
        apply List.map_congr_left
        intro a ha
        cases hca : a.is_active with
        | false =>
          have hnm : a.id ∉ (fetched_updates s prices).map (fun u => u.2.1) := by
            intro hmem
            obtain ⟨u, hu, hui⟩ := List.mem_map.mp hmem
            obtain ⟨b, hbm, hbact, _, _, hb2⟩ := (mem_fetched_updates s prices u).mp hu
            have hba : b = a := List.inj_on_of_nodup_map hI hbm ha (by rw [← hb2, hui])
            rw [hba, hca] at hbact
            exact Bool.noConfusion hbact
          have hlk : ((fetched_updates s prices).map (fun u => u.2)).lookup a.id = none := by
            apply lookup_eq_none_of_not_mem
            intro hmem
            exact hnm (by simpa [List.map_map, Function.comp] using hmem)
          simp [hlk, hca]
        | true =>
          cases hcl : prices.lookup a.binance_symbol with
          | none =>
            have hnm : a.id ∉ (fetched_updates s prices).map (fun u => u.2.1) := by
              intro hmem
              obtain ⟨u, hu, hui⟩ := List.mem_map.mp hmem
              obtain ⟨b, hbm, _, hbl, _, hb2⟩ := (mem_fetched_updates s prices u).mp hu
              have hba : b = a := List.inj_on_of_nodup_map hI hbm ha (by rw [← hb2, hui])
              rw [hba] at hbl
              rw [hcl] at hbl
              exact Option.noConfusion hbl
            have hlk : ((fetched_updates s prices).map (fun u => u.2)).lookup a.id = none := by
              apply lookup_eq_none_of_not_mem
              intro hmem
              exact hnm (by simpa [List.map_map, Function.comp] using hmem)
            simp [hlk, hca, hcl]
          | some p =>
            have hmem : (a.ticker, a.id, p) ∈ fetched_updates s prices :=
              (mem_fetched_updates s prices (a.ticker, a.id, p)).mpr
                ⟨a, ha, hca, hcl, rfl, rfl⟩
            have hkeysnd : (((fetched_updates s prices).map (fun u => u.2)).map
                (fun e => e.1)).Nodup := by
              simpa [List.map_map, Function.comp] using hnod
            have hlk : ((fetched_updates s prices).map (fun u => u.2)).lookup a.id
                = some p :=
              lookup_of_mem_nodup _ _ _ hkeysnd
                (List.mem_map.mpr ⟨(a.ticker, a.id, p), hmem, rfl⟩)
            simp [hlk, hca, hcl]
      have hhist : (apply_sync s (fetched_updates s prices)).price_history
          = s.price_history ++ (fetched_updates s prices).map (fun u => (u.2.1, u.2.2)) :=
        foldl_persist_history _ _
      have hbr : (apply_sync s (fetched_updates s prices)).broadcasts
          = s.broadcasts := foldl_persist_broadcasts _ _
      rw [hupd]
      by_cases hfe : ((fetched_updates s prices).map (fun u => (u.1, u.2.2))).isEmpty = true
      · rw [if_pos hfe]
        have hfe2 : fetched_updates s prices = [] :=
          List.map_eq_nil_iff.mp (List.isEmpty_iff.mp hfe)
        have hfe3 : (fetched_updates s prices).isEmpty = true := by
          rw [hfe2]
          rfl
        refine ⟨hassets, hhist, ?_⟩
        rw [if_pos hfe3]
        exact hbr
      · rw [if_neg hfe]
        have hfe2 : (fetched_updates s prices).isEmpty = false := by
          cases hh : (fetched_updates s prices).isEmpty with
          | false => rfl
          | true =>
            exfalso
            apply hfe
            rw [List.isEmpty_iff.mp hh]
            rfl
        refine ⟨hassets, hhist, ?_⟩
        show (apply_sync s (fetched_updates s prices)).broadcasts
            ++ [market_update_message ((fetched_updates s prices).map
                 (fun u => (u.1, u.2.2)))] = _
        rw [if_neg (by rw [hfe2]; exact Bool.false_ne_true), hbr]

/-- Witness for C1: buying one unit at price 100 from balance 10000
leaves balance 9900. -/
theorem buy_trade_correct_witness :
    ∃ db1 tx, execute_trade sample_db 1 "BTC" 1 "BUY" = .ok (db1, tx) ∧
      (get_user_by_id db1 1).map (fun u => u.balance) = some 9900 := by
  obtain ⟨db1, tx, h1, h2, _, _, _, _⟩ := buy_trade_correct sample_db 1 "BTC" 1
    sample_user sample_asset rfl rfl (by norm_num)
    (by norm_num [sample_asset, sample_user])
  refine ⟨db1, tx, h1, ?_⟩
  rw [h2]
  norm_num [sample_user, sample_asset]

/-- Witness for C2: selling one unit while holding half a unit is
rejected with `insufficientHolding`. -/
theorem sell_trade_correct_witness :
    execute_trade sample_db3 1 "BTC" 1 "SELL" = .error .insufficientHolding :=
  ((sell_trade_correct sample_db3 1 "BTC" 1 sample_user sample_asset rfl rfl
    (by norm_num)).2 sample_half_holding rfl).1 (by norm_num [sample_half_holding])

/-- Witness for C3: a trade for a missing user leaves the store
unchanged. -/
theorem failed_trade_preserves_state_witness :
    execute_trade_db sample_db 999 "BTC" 1 "BUY" = sample_db :=
  failed_trade_preserves_state sample_db 999 "BTC" 1 "BUY" .userNotFound rfl

/-- Witness for C4: the invariants hold after a concrete BUY and after a
concrete reset. -/
theorem trade_ops_preserve_invariant_witness :
    (balances_nonneg (execute_trade_db sample_db 1 "BTC" 1 "BUY") ∧
     quantities_nonneg (execute_trade_db sample_db 1 "BTC" 1 "BUY")) ∧
    (balances_nonneg (reset_account_db sample_db 1) ∧
     quantities_nonneg (reset_account_db sample_db 1)) :=
  trade_ops_preserve_invariant sample_db 1 "BTC" 1 "BUY"
    (by unfold user_ids_nodup; decide) (by unfold portfolio_keys_nodup; decide)
    (by intro u hu; rw [List.mem_singleton.mp hu]; norm_num [sample_user])
    (by intro p hp; exact absurd hp (List.not_mem_nil p))
    (by intro a ha; rw [List.mem_singleton.mp ha]; norm_num [sample_asset])
    (by norm_num)

/-- Witness for C5: the three replay rules at concrete stats. -/
theorem wallet_replay_average_cost_witness :
    wallet_stats_step { total_cost := 0, quantity := 0, avg_price := 0 } "BUY" 2 100
      = { total_cost := 0 + 2 * 100, quantity := 0 + 2,
          avg_price := (0 + 2 * 100) / (0 + 2) } ∧
    wallet_stats_step { total_cost := 400, quantity := 3, avg_price := 400/3 }
        "SELL" 1 150
      = { total_cost := 400 - 1 * (400/3), quantity := 3 - 1, avg_price := 400/3 } ∧
    wallet_stats_step { total_cost := 100, quantity := 1, avg_price := 100 }
        "SELL" 2 90
      = { total_cost := 0, quantity := 0, avg_price := 0 } :=
  ⟨(wallet_replay_average_cost ⟨0, 0, 0⟩ 2 100).1 (by norm_num),
   (wallet_replay_average_cost ⟨400, 3, 400/3⟩ 1 150).2.1 (by norm_num),
   (wallet_replay_average_cost ⟨100, 1, 100⟩ 2 90).2.2.1 (by norm_num)⟩

/-- Witness for C6: the wallet total of the sample store with one
holding. -/
theorem wallet_total_value_correct_witness :
    (get_wallet sample_db2 1).map (fun w => w.total_value)
      = some (total_value_from_spec sample_db2 1 sample_user) :=
  wallet_total_value_correct sample_db2 1 sample_user rfl
    (by
      intro p hp
      have hps : p = sample_holding := by
        simpa [sample_db2, sample_db, sample_holding] using hp
      subst hps
      rfl)

/-- Witness for C7: resetting the sample account deletes its one holding
and a second reset deletes nothing. -/
theorem reset_account_idempotent_witness :
    ∃ db1, reset_account sample_db2 1 = .ok (db1,
        { deleted_portfolio_items := 1, deleted_transactions := 0,
          new_balance := INITIAL_BALANCE }) ∧
      reset_account db1 1 = .ok (db1,
        { deleted_portfolio_items := 0, deleted_transactions := 0,
          new_balance := INITIAL_BALANCE }) := by
  obtain ⟨db1, h1, _, _, _, h5⟩ := reset_account_idempotent sample_db2 1 sample_user rfl
  exact ⟨db1, h1, h5⟩

/-- Witness for C8: a cycle over an empty asset table is a no-op with
zero feed calls, and a failing feed leaves the state unchanged. -/
theorem sync_cycle_no_prices_noop_witness :
    update_prices sample_market_empty (.ok [("BTCUSDT", 5)])
      = (sample_market_empty, 0) ∧
    (update_prices sample_market_empty .unavailable).1 = sample_market_empty :=
  ⟨(sync_cycle_no_prices_noop sample_market_empty (.ok [("BTCUSDT", 5)])).1
      (Or.inl rfl),
   (sync_cycle_no_prices_noop sample_market_empty .unavailable).2⟩

/-- Witness for C9: a successful cycle over the sample market with one
fetched price. -/
theorem sync_cycle_success_witness :
    (update_prices sample_market (.ok [("BTCUSDT", 101)])).1.assets
      = sample_market.assets.map (fun a =>
          match (if a.is_active then ([("BTCUSDT", 101)] : List (String × ℚ)).lookup
            a.binance_symbol else none) with
          | some p => { a with current_price := p }
          | none => a) ∧
    (update_prices sample_market (.ok [("BTCUSDT", 101)])).1.price_history
      = sample_market.price_history
        ++ (fetched_updates sample_market [("BTCUSDT", 101)]).map
             (fun u => (u.2.1, u.2.2)) ∧
    (update_prices sample_market (.ok [("BTCUSDT", 101)])).1.broadcasts
      = (if (fetched_updates sample_market [("BTCUSDT", 101)]).isEmpty
         then sample_market.broadcasts
         else sample_market.broadcasts ++
           [market_update_message
             ((fetched_updates sample_market [("BTCUSDT", 101)]).map
               (fun u => (u.1, u.2.2)))]) :=
  sync_cycle_success sample_market [("BTCUSDT", 101)] (by decide) (by decide)
    (by intro a ha _; rw [List.mem_singleton.mp ha]; decide)

/-- Witness for C10: one failing subscriber among three is removed while
the other two receive the message. -/
theorem broadcast_correct_witness :
    broadcast [⟨1, false⟩, ⟨2, true⟩, ⟨3, false⟩]
      = ([⟨1, false⟩, ⟨3, false⟩], [⟨1, false⟩, ⟨3, false⟩]) :=
  (broadcast_correct [⟨1, false⟩, ⟨2, true⟩, ⟨3, false⟩] (by decide)).trans
    (by decide)

end TradingSim
